import Mathlib

/-! # OOP_Encapsulation: a shallow embedding of `main.cpp`

The program is a turn-based text game: a `Game` maps command strings to polymorphic
`Action` objects, each of which mutates a `Player` through the `ActionSubscriber`
interface.

Conventions of the embedding.

* `std::string` is a list of bytes (`CppString`); string literals of the source are written
  with `lit`, which yields their UTF-8 bytes, the encoding of the source file.
* `uint` is a natural number below `2 ^ 32`; every operation that can leave that range is
  reduced modulo `2 ^ 32` explicitly (`toUInt`, `uintAdd`).  `size_t` is wider than `uint`,
  so the cast `(uint)s.length()` is a reduction modulo `2 ^ 32` as well.
* `int` is an integer; the sum computed by `+=` on `int` is taken in two's complement
  (`wrapInt`).  In C++ a signed overflow has no defined result, so statements about positions
  say what happens when the sum is representable.
* `float` fields are exact rationals.
* A thrown `domain_error` is `Except.error` with the message of the source.
* `Player` objects live outside of the `Game`, which holds pointers to them; the embedding
  keeps a heap `Ptr → Player` and pointers `Ptr`.
* `rand()` is a sequence `rand : Nat → Nat` of non-negative draws together with the count
  of calls made so far.
* Text written to `cout` is not part of the state and is left out.
-/

namespace OOPEncapsulation

/-! ## Machine arithmetic and strings -/

/-- A `std::string`: its bytes. -/
abbrev CppString := List UInt8

/-- A string literal of the source, as the bytes of its UTF-8 encoding. -/
def lit (s : String) : CppString := s.toUTF8.data.toList

/-- `std::string::length()`. -/
def CppString.length (s : CppString) : Nat := List.length s

/-- `operator<` of `std::string`: lexicographic comparison of the bytes. -/
def CppString.lt : CppString → CppString → Bool
  | [], [] => false
  | [], _ :: _ => true
  | _ :: _, [] => false
  | a :: as, b :: bs => if a < b then true else if b < a then false else CppString.lt as bs

/-- The number of values of `uint`. -/
def UINT_SIZE : Nat := 4294967296

/-- Conversion of a `size_t` value to `uint`, as in `(uint)s.length()`. -/
def toUInt (n : Nat) : Nat := n % UINT_SIZE

/-- Conversion of an `int` to `uint` (usual arithmetic conversions). -/
def intToUInt (i : Int) : Nat := (i % (UINT_SIZE : Int)).toNat

/-- Addition of two `uint` values. -/
def uintAdd (a b : Nat) : Nat := (a + b) % UINT_SIZE

/-- The `int` that a two's complement machine holds for the integer `i`. -/
def wrapInt (i : Int) : Int := (i + 2147483648) % 4294967296 - 2147483648

/-- The values of `int`. -/
def InIntRange (i : Int) : Prop := -2147483648 ≤ i ∧ i ≤ 2147483647

instance (i : Int) : Decidable (InIntRange i) := by
  unfold InIntRange; exact inferInstance

/-! ## Plain structs -/

/-- The `struct Point`. -/
structure Point where
  x : Int
  y : Int
deriving DecidableEq, Repr

/-- The `struct StatsDelta`. -/
structure StatsDelta where
  deltaLevel : Int
  deltaHealth : Int
deriving DecidableEq, Repr

/-- The `struct StatsDeltaMultiply`; the `float` fields are rationals. -/
structure StatsDeltaMultiply where
  multiplyLevel : ℚ
  multiplyHealth : ℚ
deriving DecidableEq

/-- The `struct PositionDelta`. -/
structure PositionDelta where
  x : Int
  y : Int
deriving DecidableEq, Repr

/-! ## `Buff` and `BuffSet` -/

/-- The data members of `class Buff`. -/
structure Buff where
  buffEffect : StatsDeltaMultiply
  description : CppString
deriving DecidableEq

namespace Buff

def MAX_DESCRIPTION_LENGTH : Nat := 30

def MAX_BUFF_SUM : Nat := 10

/-- The constructor `Buff::Buff(StatsDeltaMultiply, string)`. -/
def new (buffEffect : StatsDeltaMultiply) (description : CppString) : Except String Buff :=
  let descriptionLength := toUInt description.length
  if descriptionLength > MAX_DESCRIPTION_LENGTH then
    .error "Buff description length greater than max"
  else if buffEffect.multiplyLevel + buffEffect.multiplyHealth > 10 then
    .error "Buff sum greater than max"
  else
    .ok { buffEffect := buffEffect, description := description }

/-- The getter `Buff::getDescription`. -/
def getDescription (b : Buff) : CppString := b.description

/-- The friend `operator==`: equal descriptions. -/
def eq (lhs rhs : Buff) : Bool := decide (lhs.description = rhs.description)

/-- The friend `operator<`: the shorter description comes first. -/
def lt (lhs rhs : Buff) : Bool := decide (lhs.description.length < rhs.description.length)

end Buff

/-- A `std::set<Buff>`: its elements in ascending order of `Buff.lt`. -/
abbrev BuffSet := List Buff

namespace BuffSet

/-- `std::set::insert(value)`: the set is unchanged when it holds an element that is neither
less nor greater than `b`. -/
def insert (b : Buff) : BuffSet → BuffSet
  | [] => [b]
  | x :: xs =>
    if Buff.lt b x then b :: x :: xs
    else if Buff.lt x b then x :: insert b xs
    else x :: xs

/-- `std::set::insert(first, last)`: the elements of the range, inserted in order. -/
def insertRange (s : BuffSet) (range : List Buff) : BuffSet :=
  range.foldl (fun acc b => insert b acc) s

/-- `std::set_intersection` on two ascending ranges, with `operator<` as the order; the output
holds elements of the first range. -/
def set_intersection : List Buff → List Buff → List Buff
  | [], _ => []
  | _ :: _, [] => []
  | a :: as, b :: bs =>
    if Buff.lt a b then set_intersection as (b :: bs)
    else if Buff.lt b a then set_intersection (a :: as) bs
    else a :: set_intersection as bs

/-- Whether `s` holds an element equivalent to `b` under the order of the set. -/
def containsEquiv (s : BuffSet) (b : Buff) : Bool :=
  s.any (fun x => !Buff.lt x b && !Buff.lt b x)

/-- The call `erase(first, last)` of `Player::removeBuffs`.  The source passes the iterators of
the intersection, a different container; the call is defined only for an empty range, where it
does nothing.  The embedding agrees with that for an empty range and otherwise erases the
elements of `s` that the range holds, which is what the function is written to do. -/
def eraseRange (s : BuffSet) (range : List Buff) : BuffSet :=
  s.filter (fun x => !containsEquiv range x)

end BuffSet

/-- The `struct BuffsDelta`. -/
structure BuffsDelta where
  add : BuffSet
  remove : BuffSet
deriving DecidableEq

/-! ## `Player` -/

/-- The data members of `class Player`. -/
structure Player where
  nickname : CppString
  level : Nat
  health : Nat
  buffs : BuffSet
  currentPosition : Point
  checkPoint : Point
deriving DecidableEq

namespace Player

def MAX_NICKNAME_LENGTH : Nat := 30

def MAX_LEVEL : Nat := 256

def MAX_HEALTH : Nat := 1000

/-- The private method `Player::removeBuffs`. -/
def removeBuffs (p : Player) (buffs : BuffSet) : Player :=
  let buffIntersection : BuffSet :=
    BuffSet.insertRange [] (BuffSet.set_intersection p.buffs buffs)
  { p with buffs := BuffSet.eraseRange p.buffs buffIntersection }

/-- The private method `Player::addBuffs`. -/
def addBuffs (p : Player) (buffs : BuffSet) : Player :=
  { p with buffs := BuffSet.insertRange p.buffs buffs }

/-- The constructor `Player::Player(string, uint, Point)`. -/
def new (nickname : CppString) (level : Nat) (currentPosition : Point) :
    Except String Player :=
  let nicknameLength := toUInt nickname.length
  if nicknameLength > MAX_NICKNAME_LENGTH then
    .error "Nickname length greater than max"
  else if level > MAX_LEVEL then
    .error "Level greater than max"
  else
    .ok { nickname := nickname, level := level, health := 1000, buffs := [],
          currentPosition := currentPosition, checkPoint := currentPosition }

def getCurrentPosition (p : Player) : Point := p.currentPosition

def getLevel (p : Player) : Nat := p.level

def getHealth (p : Player) : Nat := p.health

def getNickname (p : Player) : CppString := p.nickname

/-- The getter `Player::getBuffs`: the descriptions of the buffs, concatenated in the order of
the set. -/
def getBuffs (p : Player) : CppString :=
  p.buffs.foldl (fun buffsDescriptor buff => buffsDescriptor ++ buff.getDescription) []

/-- The setter `Player::setNickname`; the message of the error carries the two lengths. -/
def setNickname (p : Player) (nickname : CppString) : Except String Player :=
  let nicknameLength := toUInt nickname.length
  if nicknameLength > MAX_NICKNAME_LENGTH then
    .error ("Nickname length greater than max. Expected " ++ toString MAX_NICKNAME_LENGTH
      ++ ", got " ++ toString nicknameLength)
  else
    .ok { p with nickname := nickname }

/-- The override `Player::apply(StatsDelta &)`. -/
def apply_StatsDelta (p : Player) (stats : StatsDelta) : Player :=
  { p with
    level := uintAdd p.level (intToUInt stats.deltaLevel) % (MAX_LEVEL + 1)
    health := min 0 (uintAdd p.health (intToUInt stats.deltaHealth)) % (MAX_HEALTH + 1) }

/-- The override `Player::apply(BuffsDelta &)`. -/
def apply_BuffsDelta (p : Player) (buffs : BuffsDelta) : Player :=
  (p.removeBuffs buffs.remove).addBuffs buffs.add

/-- The override `Player::apply(PositionDelta &)`. -/
def apply_PositionDelta (p : Player) (positionDelta : PositionDelta) : Player :=
  { p with
    currentPosition :=
      { x := wrapInt (p.currentPosition.x + positionDelta.x)
        y := wrapInt (p.currentPosition.y + positionDelta.y) } }

/-- The override `Player::getSubscriberDescription`. -/
def getSubscriberDescription (p : Player) : CppString := p.getNickname

end Player

/-- A call of one of the public mutators of `Player`. -/
inductive PlayerOp where
  | applyStats (stats : StatsDelta)
  | applyBuffs (buffs : BuffsDelta)
  | applyPosition (positionDelta : PositionDelta)
  | setNickname (nickname : CppString)

/-- The player after one call; a `setNickname` that throws leaves the object as it was. -/
def Player.applyOp (p : Player) : PlayerOp → Player
  | .applyStats stats => p.apply_StatsDelta stats
  | .applyBuffs buffs => p.apply_BuffsDelta buffs
  | .applyPosition positionDelta => p.apply_PositionDelta positionDelta
  | .setNickname nickname =>
    match p.setNickname nickname with
    | .ok q => q
    | .error _ => p

/-- The player after a sequence of calls, first call first. -/
def Player.applyOps (p : Player) (ops : List PlayerOp) : Player :=
  ops.foldl Player.applyOp p

/-! ## Actions -/

/-- The address of a `Player` object. -/
abbrev Ptr := Nat

/-- The `Player` objects of the program, by address. -/
abbrev Heap := Ptr → Player

/-- The buff built in the first branch of `Move::execute`. -/
def herb : StatsDeltaMultiply := { multiplyHealth := 3 / 2, multiplyLevel := 3 / 2 }

/-- The buff built in the second branch of `Move::execute` (`1.3` in the source). -/
def coffee : StatsDeltaMultiply := { multiplyHealth := 13 / 10, multiplyLevel := 13 / 10 }

/-- The buff built in the surviving branch of `AdminSuicide::execute`. -/
def badPotion : StatsDeltaMultiply := { multiplyLevel := 1 / 10, multiplyHealth := 1 }

namespace Move

def RAND_LIMIT : Nat := 12

/-- The body of `Move::execute` for the subscribed player `subscriber`, where `rand1` and
`rand2` are the values of the two calls of `rand()`.  The result is the new value of the
member `moveDelta` and the player after the two `apply` calls. -/
def execute (subscriber : Player) (rand1 rand2 : Nat) :
    Except String (PositionDelta × Player) := do
  let random1 := rand1 % RAND_LIMIT
  let random2 := rand2 % RAND_LIMIT
  let moveDelta : PositionDelta := { x := (random1 : Int), y := (random2 : Int) }
  let direction := random1 % 3
  let buffsDelta : BuffsDelta := { add := [], remove := [] }
  let buffsDelta ←
    if direction = 0 then do
      let buff ← Buff.new herb (lit "🌿")
      pure { buffsDelta with add := BuffSet.insert buff buffsDelta.add }
    else if direction = 1 then do
      let buff ← Buff.new coffee (lit "☕")
      pure { buffsDelta with add := BuffSet.insert buff buffsDelta.add }
    else
      pure buffsDelta
  pure (moveDelta, (subscriber.apply_BuffsDelta buffsDelta).apply_PositionDelta moveDelta)

end Move

namespace Jog

def RAND_LIMIT : Nat := 24

/-- The body of `Jog::execute`, with the result as for `Move.execute`. -/
def execute (subscriber : Player) (rand1 rand2 : Nat) :
    Except String (PositionDelta × Player) :=
  let random1 := rand1 % RAND_LIMIT
  let random2 := rand2 % RAND_LIMIT
  let moveDelta : PositionDelta := { x := (random1 : Int), y := (random2 : Int) }
  pure (moveDelta, subscriber.apply_PositionDelta moveDelta)

end Jog

namespace MountainJog

/-- The body of `MountainJog::execute`: `Jog::execute()`, then a line of output. -/
def execute (subscriber : Player) (rand1 rand2 : Nat) :
    Except String (PositionDelta × Player) :=
  Jog.execute subscriber rand1 rand2

end MountainJog

namespace AdminSuicide

/-- The body of `AdminSuicide::execute` for the player `admin`, where `rand1` is the value of
the call of `rand()`. -/
def execute (admin : Player) (rand1 : Nat) : Except String Player := do
  let willDie : Bool := rand1 % 2 != 0
  if willDie then
    let suicide : StatsDelta := { deltaHealth := -10000, deltaLevel := 0 }
    pure (admin.apply_StatsDelta suicide)
  else
    let buffsDelta : BuffsDelta := { add := [], remove := [] }
    let buff ← Buff.new badPotion (lit "🧪⚰️")
    let buffsDelta := { buffsDelta with add := BuffSet.insert buff buffsDelta.add }
    pure (admin.apply_BuffsDelta buffsDelta)

end AdminSuicide

/-- An object of one of the four classes derived from `Action`, with its data members.
`moveDelta` is `none` until `execute` assigns it. -/
inductive Action where
  | AdminSuicide (admin : Ptr)
  | Move (moveDelta : Option PositionDelta) (subscriber : Ptr)
  | Jog (moveDelta : Option PositionDelta) (subscriber : Ptr)
  | MountainJog (moveDelta : Option PositionDelta) (subscriber : Ptr)
deriving DecidableEq

/-- The virtual call `action->execute()`: `rand` is the sequence of values of `rand()` and
`randCalls` the number of calls made before.  The result is the action object, the heap and the
number of calls afterwards. -/
def Action.execute (rand : Nat → Nat) (action : Action) (heap : Heap) (randCalls : Nat) :
    Except String (Action × Heap × Nat) :=
  match action with
  | .AdminSuicide admin => do
    let admin' ← AdminSuicide.execute (heap admin) (rand randCalls)
    pure (.AdminSuicide admin, Function.update heap admin admin', randCalls + 1)
  | .Move _ subscriber => do
    let (moveDelta, subscriber') ←
      Move.execute (heap subscriber) (rand randCalls) (rand (randCalls + 1))
    pure (.Move (some moveDelta) subscriber, Function.update heap subscriber subscriber',
      randCalls + 2)
  | .Jog _ subscriber => do
    let (moveDelta, subscriber') ←
      Jog.execute (heap subscriber) (rand randCalls) (rand (randCalls + 1))
    pure (.Jog (some moveDelta) subscriber, Function.update heap subscriber subscriber',
      randCalls + 2)
  | .MountainJog _ subscriber => do
    let (moveDelta, subscriber') ←
      MountainJog.execute (heap subscriber) (rand randCalls) (rand (randCalls + 1))
    pure (.MountainJog (some moveDelta) subscriber,
      Function.update heap subscriber subscriber', randCalls + 2)

/-! ## `Game` -/

/-- A `std::map<string, Action*>`: its entries in ascending order of the keys.  Every action
object is owned by its entry, so the entry holds the object. -/
abbrev ActionMap := List (CppString × Action)

namespace ActionMap

/-- `std::map::count(key)`. -/
def count (m : ActionMap) (key : CppString) : Nat :=
  if m.any (fun entry => entry.1 = key) then 1 else 0

/-- The entry that `m[key]` refers to when `key` is present. -/
def find? : ActionMap → CppString → Option Action
  | [], _ => none
  | (k, a) :: m, key => if k = key then some a else find? m key

/-- The assignment `m[key] = action`: the value of an existing entry is replaced, a new entry
goes to its place in the order. -/
def assign (key : CppString) (action : Action) : ActionMap → ActionMap
  | [] => [(key, action)]
  | (k, a) :: m =>
    if k = key then (k, action) :: m
    else if CppString.lt key k then (key, action) :: (k, a) :: m
    else (k, a) :: assign key action m

/-- The keys of the map, in order. -/
def keys (m : ActionMap) : List CppString := m.map Prod.fst

end ActionMap

/-- The data members of `class Game` (`playersCount` is never written or read). -/
structure Game where
  onlinePlayers : List Ptr
  admin : Ptr
  availableActions : ActionMap
deriving DecidableEq

namespace Game

/-- The constructor `Game::Game(Player &)`. -/
def new (admin : Ptr) : Game :=
  let availableActions : ActionMap := []
  let availableActions := availableActions.assign (lit "/q") (.AdminSuicide admin)
  let availableActions := availableActions.assign (lit "/m") (.Move none admin)
  { admin := admin, onlinePlayers := [admin], availableActions := availableActions }

/-- The method `Game::add(Player &)`; the heap gives the nickname of the player. -/
def add (g : Game) (heap : Heap) (player : Ptr) : Game :=
  let availableActions := g.availableActions
  let availableActions :=
    availableActions.assign (lit "/move:" ++ (heap player).getNickname) (.Move none player)
  let availableActions :=
    availableActions.assign (lit "/jog:" ++ (heap player).getNickname) (.Jog none player)
  let availableActions :=
    availableActions.assign (lit "/mjog:" ++ (heap player).getNickname)
      (.MountainJog none player)
  { g with availableActions := availableActions, onlinePlayers := g.onlinePlayers ++ [player] }

/-- The game after a call of `add` for each of `players`, in order. -/
def addAll (g : Game) (heap : Heap) (players : List Ptr) : Game :=
  players.foldl (fun g player => g.add heap player) g

end Game

/-- The state that the game loop works on. -/
structure World where
  heap : Heap
  game : Game
  randCalls : Nat

namespace Game

/-- The condition of the `while` in `Game::startGameLoop`. -/
def loopCondition (w : World) : Bool := decide ((w.heap w.game.admin).getHealth > 0)

/-- The body of the `while` in `Game::startGameLoop` once `input` has been read.
`count(input) > 0` holds exactly when `find?` yields the entry, the one that
`availableActions[input]` then refers to. -/
def turn (rand : Nat → Nat) (w : World) (input : CppString) : Except String World :=
  if w.game.availableActions.count input > 0 then
    match w.game.availableActions.find? input with
    | some action => do
      let (action', heap', randCalls') ← action.execute rand w.heap w.randCalls
      pure { heap := heap'
             game := { w.game with
               availableActions := w.game.availableActions.assign input action' }
             randCalls := randCalls' }
    | none => pure w
  else
    pure w

end Game

/-- How a run of the game loop on finitely many tokens of standard input ends. -/
inductive LoopOutcome where
  /-- The condition of the `while` was false: the loop is left with these tokens unread. -/
  | finished (w : World) (unread : List CppString)
  /-- All tokens have been read and the condition of the `while` still holds. -/
  | awaiting (w : World)

/-- The loop of `Game::startGameLoop` on the tokens that `cin >> input` yields. -/
def Game.startGameLoop (rand : Nat → Nat) : World → List CppString → Except String LoopOutcome
  | w, [] => if Game.loopCondition w then pure (.awaiting w) else pure (.finished w [])
  | w, input :: rest =>
    if Game.loopCondition w then do
      let w' ← Game.turn rand w input
      Game.startGameLoop rand w' rest
    else
      pure (.finished w (input :: rest))

/-! ## The objects of `main` -/

/-- The object `admin` of `main`, as `Player("aldrt23", 32, {3, 2})` leaves it. -/
def mainAdmin : Player :=
  { nickname := lit "aldrt23", level := 32, health := 1000, buffs := [],
    currentPosition := ⟨3, 2⟩, checkPoint := ⟨3, 2⟩ }

/-- The object `player2` of `main`, as `Player("fersp63", 16, {6, 7})` leaves it. -/
def mainPlayer2 : Player :=
  { nickname := lit "fersp63", level := 16, health := 1000, buffs := [],
    currentPosition := ⟨6, 7⟩, checkPoint := ⟨6, 7⟩ }

/-- The heap of `main`: `admin` at address `0`, `player2` at every other address. -/
def mainHeap : Heap := fun ptr => if ptr = 0 then mainAdmin else mainPlayer2

/-- The game of `main`: `Game game(admin)`, then `game.add(player2)`. -/
def mainGame : Game := (Game.new 0).addAll mainHeap [1]

/-- The state in which `main` calls `game.start()`. -/
def mainWorld : World := { heap := mainHeap, game := mainGame, randCalls := 0 }

/-- The state of `main` after the command `/jog:fersp63` with the draws `1` and `1`. -/
def mainWorldAfterJog : World :=
  { heap := Function.update mainHeap 1 (mainPlayer2.apply_PositionDelta ⟨1, 1⟩)
    game := { mainGame with
      availableActions :=
        mainGame.availableActions.assign (lit "/jog:fersp63") (.Jog (some ⟨1, 1⟩) 1) }
    randCalls := 2 }

/-- The buff that `Move::execute` builds from `herb`. -/
def herbBuff : Buff := { buffEffect := herb, description := lit "🌿" }

/-- The buff that `Move::execute` builds from `coffee`. -/
def coffeeBuff : Buff := { buffEffect := coffee, description := lit "☕" }

/-- The buff that `AdminSuicide::execute` builds from `badPotion`. -/
def badPotionBuff : Buff := { buffEffect := badPotion, description := lit "🧪⚰️" }

/-- A buff with a description of three bytes, as `coffeeBuff` has. -/
def teaBuff : Buff :=
  { buffEffect := { multiplyLevel := 1, multiplyHealth := 1 }, description := lit "tea" }

/-- The object `admin` of `main` after a `Move` that found coffee and moved by `(1, 0)`. -/
def mainAdminWithCoffee : Player :=
  { mainAdmin with buffs := [coffeeBuff], currentPosition := ⟨4, 2⟩ }

/-- A buff with a description of four bytes, as `herbBuff` has. -/
def abcdBuff : Buff :=
  { buffEffect := { multiplyLevel := 1, multiplyHealth := 1 }, description := lit "abcd" }

/-- The object `admin` of `main` after `apply(BuffsDelta{add = {abcdBuff}, remove = {}})`. -/
def mainAdminWithAbcd : Player := { mainAdmin with buffs := [abcdBuff] }

/-- A string of `2 ^ 32` bytes, each the letter `a`. -/
def longString : CppString := List.replicate 4294967296 97

/-! ## Arithmetic lemmas -/

theorem uintAdd_intToUInt (a : Nat) (d : Int) :
    uintAdd a (intToUInt d) = (((a : Int) + d) % 4294967296).toNat := by
  unfold uintAdd intToUInt UINT_SIZE
  omega

theorem toUInt_of_lt {n : Nat} (h : n < 4294967296) : toUInt n = n := by
  unfold toUInt UINT_SIZE; omega

theorem wrapInt_of_inRange {i : Int} (h : InIntRange i) : wrapInt i = i := by
  unfold InIntRange at h; unfold wrapInt; omega

theorem wrapInt_inRange (i : Int) : InIntRange (wrapInt i) := by
  unfold InIntRange wrapInt; omega

theorem longString_length : CppString.length longString = 4294967296 :=
  List.length_replicate _ _

/-! ## Construction of players and buffs -/

/-- On nicknames shorter than `2 ^ 32` bytes the constructor of `Player` throws exactly when
the nickname is longer than 30 bytes or the level is above 256, and otherwise builds the player
from its arguments. -/
theorem Player.new_player_of_length_lt (nickname : CppString) (level : Nat) (position : Point)
    (hlen : nickname.length < 4294967296) :
    ((∃ msg, Player.new nickname level position = .error msg) ↔
        (nickname.length > 30 ∨ level > 256)) ∧
    (¬ (nickname.length > 30 ∨ level > 256) →
      Player.new nickname level position =
        .ok { nickname := nickname, level := level, health := 1000, buffs := [],
              currentPosition := position, checkPoint := position }) := by
  unfold Player.new
  simp only [toUInt_of_lt hlen, Player.MAX_NICKNAME_LENGTH, Player.MAX_LEVEL]
  by_cases h1 : nickname.length > 30
  · simp [h1]
  · by_cases h2 : level > 256
    · simp [h1, h2]
    · simp [h1, h2]

/-- C2, at a failing input: the constructor of `Player` accepts a nickname of `2 ^ 32` bytes,
because the length is cast to `uint` before it is compared with `MAX_NICKNAME_LENGTH`. -/
theorem Player.new_player_accepts_longString :
    CppString.length longString > 30 ∧
    Player.new longString 0 ⟨0, 0⟩ =
      .ok { nickname := longString, level := 0, health := 1000, buffs := [],
            currentPosition := ⟨0, 0⟩, checkPoint := ⟨0, 0⟩ } := by
  refine ⟨by rw [longString_length]; decide, ?_⟩
  unfold Player.new
  simp only [longString_length]
  rfl

/-- On descriptions shorter than `2 ^ 32` bytes the constructor of `Buff` throws exactly when
the description is longer than 30 bytes or the two factors add up to more than 10, and
otherwise builds the buff from its arguments.  The factors and their sum are exact rationals
here; the `float` sum of the source is rounded, so this says nothing about factors whose exact
sum is within rounding distance of 10. -/
theorem Buff.new_buff_of_length_lt (buffEffect : StatsDeltaMultiply) (description : CppString)
    (hlen : description.length < 4294967296) :
    ((∃ msg, Buff.new buffEffect description = .error msg) ↔
        (description.length > 30 ∨ buffEffect.multiplyLevel + buffEffect.multiplyHealth > 10)) ∧
    (¬ (description.length > 30 ∨ buffEffect.multiplyLevel + buffEffect.multiplyHealth > 10) →
      ∃ b, Buff.new buffEffect description = .ok b ∧ b.getDescription = description) := by
  unfold Buff.new
  simp only [toUInt_of_lt hlen, Buff.MAX_DESCRIPTION_LENGTH]
  by_cases h1 : description.length > 30
  · simp [h1]
  · by_cases h2 : buffEffect.multiplyLevel + buffEffect.multiplyHealth > 10
    · simp [h1, h2]
    · simp [h1, h2, Buff.getDescription]

/-- C3, at a failing input: the constructor of `Buff` accepts a description of `2 ^ 32` bytes,
because the length is cast to `uint` before it is compared with `MAX_DESCRIPTION_LENGTH`. -/
theorem Buff.new_buff_accepts_longString :
    CppString.length longString > 30 ∧
    Buff.new { multiplyLevel := 1, multiplyHealth := 1 } longString =
      .ok { buffEffect := { multiplyLevel := 1, multiplyHealth := 1 },
            description := longString } := by
  refine ⟨by rw [longString_length]; decide, ?_⟩
  unfold Buff.new
  simp only [longString_length]
  have h0 : ¬ toUInt 4294967296 > Buff.MAX_DESCRIPTION_LENGTH := by decide
  have h1 : ¬ ((1 : ℚ) + 1 > 10) := by norm_num
  simp only [h0, h1, if_false]

/-! ## The bounds of level and health -/

theorem Player.new_bounds {nickname : CppString} {level : Nat} {position : Point} {p : Player}
    (h : Player.new nickname level position = .ok p) :
    p.level ≤ Player.MAX_LEVEL ∧ p.health ≤ Player.MAX_HEALTH := by
  unfold Player.new at h
  simp only at h
  split at h
  · cases h
  · split at h
    · cases h
    · rename_i hl
      cases h
      exact ⟨Nat.le_of_not_gt hl, by simp [Player.MAX_HEALTH]⟩

theorem Player.applyOp_bounds (p : Player) (op : PlayerOp)
    (h : p.level ≤ Player.MAX_LEVEL ∧ p.health ≤ Player.MAX_HEALTH) :
    (p.applyOp op).level ≤ Player.MAX_LEVEL ∧ (p.applyOp op).health ≤ Player.MAX_HEALTH := by
  cases op with
  | applyStats stats =>
    simp only [Player.applyOp, Player.apply_StatsDelta, Player.MAX_LEVEL, Player.MAX_HEALTH]
    constructor
    · exact Nat.le_of_lt_succ (Nat.mod_lt _ (by decide))
    · exact Nat.le_of_lt_succ (Nat.mod_lt _ (by decide))
  | applyBuffs buffs => exact h
  | applyPosition positionDelta => exact h
  | setNickname nickname =>
    simp only [Player.applyOp, Player.setNickname]
    split
    · rename_i q hq
      split at hq
      · cases hq
      · cases hq; exact h
    · exact h

theorem Player.applyOps_bounds (ops : List PlayerOp) (p : Player)
    (h : p.level ≤ Player.MAX_LEVEL ∧ p.health ≤ Player.MAX_HEALTH) :
    (p.applyOps ops).level ≤ Player.MAX_LEVEL ∧
      (p.applyOps ops).health ≤ Player.MAX_HEALTH := by
  induction ops generalizing p with
  | nil => exact h
  | cons op ops ih => exact ih (p.applyOp op) (Player.applyOp_bounds p op h)

/-- C1: a player returned by a successful construction has `level ≤ 256` and `health ≤ 1000`,
and so it has after any finite sequence of calls of its public mutators (`apply` for a
`StatsDelta`, a `BuffsDelta`, a `PositionDelta`, and `setNickname`) with arbitrary
arguments. -/
theorem Player.level_health_within_bounds (nickname : CppString) (level : Nat)
    (position : Point) (p : Player) (ops : List PlayerOp)
    (h : Player.new nickname level position = .ok p) :
    (p.applyOps ops).level ≤ 256 ∧ (p.applyOps ops).health ≤ 1000 :=
  Player.applyOps_bounds ops p (Player.new_bounds h)

theorem Player.level_health_within_bounds_witness :
    Player.new (lit "aldrt23") 32 ⟨3, 2⟩ = .ok mainAdmin ∧
    ((mainAdmin.applyOps
        [.applyStats ⟨-40, 7⟩, .applyPosition ⟨1, -1⟩, .applyStats ⟨300, -2000⟩]).level ≤ 256 ∧
     (mainAdmin.applyOps
        [.applyStats ⟨-40, 7⟩, .applyPosition ⟨1, -1⟩, .applyStats ⟨300, -2000⟩]).health
        ≤ 1000) :=
  ⟨rfl, Player.level_health_within_bounds (lit "aldrt23") 32 ⟨3, 2⟩ mainAdmin _ rfl⟩

/-- C10: for a player in any state reached from a successful construction by calls of its public
mutators, `apply(StatsDelta)` sets the health to `0` whatever the delta is, sets the level to
`((level + deltaLevel) mod 2 ^ 32) % 257`, which is the old level when `deltaLevel = 0`, and
changes nothing else. -/
theorem Player.apply_StatsDelta_effect (nickname : CppString) (level : Nat) (position : Point)
    (p₀ : Player) (ops : List PlayerOp) (stats : StatsDelta)
    (h : Player.new nickname level position = .ok p₀) :
    ((p₀.applyOps ops).apply_StatsDelta stats).health = 0 ∧
    ((p₀.applyOps ops).apply_StatsDelta stats).level =
      ((((p₀.applyOps ops).level : Int) + stats.deltaLevel) % 4294967296).toNat % 257 ∧
    (stats.deltaLevel = 0 →
      ((p₀.applyOps ops).apply_StatsDelta stats).level = (p₀.applyOps ops).level) ∧
    ((p₀.applyOps ops).apply_StatsDelta stats).nickname = (p₀.applyOps ops).nickname ∧
    ((p₀.applyOps ops).apply_StatsDelta stats).buffs = (p₀.applyOps ops).buffs ∧
    ((p₀.applyOps ops).apply_StatsDelta stats).currentPosition =
      (p₀.applyOps ops).currentPosition := by
  have hb := Player.applyOps_bounds ops p₀ (Player.new_bounds h)
  simp only [Player.MAX_LEVEL] at hb
  refine ⟨?_, ?_, ?_, rfl, rfl, rfl⟩
  · simp [Player.apply_StatsDelta]
  · simp only [Player.apply_StatsDelta, uintAdd_intToUInt, Player.MAX_LEVEL]
  · intro h0
    simp only [Player.apply_StatsDelta, uintAdd_intToUInt, Player.MAX_LEVEL, h0]
    omega

theorem Player.apply_StatsDelta_effect_witness :
    Player.new (lit "aldrt23") 32 ⟨3, 2⟩ = .ok mainAdmin ∧
    ((mainAdmin.applyOps [.applyPosition ⟨1, 1⟩]).apply_StatsDelta ⟨0, 5⟩).health = 0 ∧
    ((mainAdmin.applyOps [.applyPosition ⟨1, 1⟩]).apply_StatsDelta ⟨0, 5⟩).level = 32 :=
  ⟨rfl,
   (Player.apply_StatsDelta_effect (lit "aldrt23") 32 ⟨3, 2⟩ mainAdmin
      [.applyPosition ⟨1, 1⟩] ⟨0, 5⟩ rfl).1,
   (Player.apply_StatsDelta_effect (lit "aldrt23") 32 ⟨3, 2⟩ mainAdmin
      [.applyPosition ⟨1, 1⟩] ⟨0, 5⟩ rfl).2.2.1 rfl⟩

/-! ## Buffs and the buff set -/

theorem Buff.new_herb : Buff.new herb (lit "🌿") = .ok herbBuff := by
  have hl : ¬ toUInt (CppString.length (lit "🌿")) > Buff.MAX_DESCRIPTION_LENGTH := by decide
  have hs : ¬ (herb.multiplyLevel + herb.multiplyHealth > 10) := by norm_num [herb]
  simp only [Buff.new, hl, hs, if_false, herbBuff]

theorem Buff.new_coffee : Buff.new coffee (lit "☕") = .ok coffeeBuff := by
  have hl : ¬ toUInt (CppString.length (lit "☕")) > Buff.MAX_DESCRIPTION_LENGTH := by decide
  have hs : ¬ (coffee.multiplyLevel + coffee.multiplyHealth > 10) := by norm_num [coffee]
  simp only [Buff.new, hl, hs, if_false, coffeeBuff]

theorem Buff.new_badPotion : Buff.new badPotion (lit "🧪⚰️") = .ok badPotionBuff := by
  have hl : ¬ toUInt (CppString.length (lit "🧪⚰️")) > Buff.MAX_DESCRIPTION_LENGTH := by decide
  have hs : ¬ (badPotion.multiplyLevel + badPotion.multiplyHealth > 10) := by
    norm_num [badPotion]
  simp only [Buff.new, hl, hs, if_false, badPotionBuff]

theorem Buff.new_tea :
    Buff.new { multiplyLevel := 1, multiplyHealth := 1 } (lit "tea") = .ok teaBuff := by
  have hl : ¬ toUInt (CppString.length (lit "tea")) > Buff.MAX_DESCRIPTION_LENGTH := by decide
  have hs : ¬ ((1 : ℚ) + 1 > 10) := by norm_num
  simp only [Buff.new, hl, hs, if_false, teaBuff]

theorem BuffSet.mem_insert_of_mem {x : Buff} (b : Buff) {s : BuffSet} (h : x ∈ s) :
    x ∈ BuffSet.insert b s := by
  induction s with
  | nil => cases h
  | cons y ys ih =>
    unfold BuffSet.insert
    split
    · exact List.mem_cons_of_mem _ h
    · split
      · rcases List.mem_cons.mp h with h | h
        · exact h ▸ List.mem_cons_self _ _
        · exact List.mem_cons_of_mem _ (ih h)
      · exact h

theorem BuffSet.exists_equiv_mem_insert (b : Buff) (s : BuffSet) :
    ∃ x ∈ BuffSet.insert b s, x.description.length = b.description.length := by
  induction s with
  | nil => exact ⟨b, List.mem_cons_self _ _, rfl⟩
  | cons y ys ih =>
    unfold BuffSet.insert
    split
    · exact ⟨b, List.mem_cons_self _ _, rfl⟩
    · split
      · obtain ⟨x, hx, hlen⟩ := ih
        exact ⟨x, List.mem_cons_of_mem _ hx, hlen⟩
      · rename_i h1 h2
        refine ⟨y, List.mem_cons_self _ _, ?_⟩
        simp only [Buff.lt, decide_eq_true_eq] at h1 h2
        omega

theorem BuffSet.mem_insert_self_of_no_equiv (b : Buff) (s : BuffSet)
    (h : ∀ x ∈ s, x.description.length ≠ b.description.length) : b ∈ BuffSet.insert b s := by
  induction s with
  | nil => exact List.mem_cons_self _ _
  | cons y ys ih =>
    have hy := h y (List.mem_cons_self _ _)
    unfold BuffSet.insert
    split
    · exact List.mem_cons_self _ _
    · split
      · exact List.mem_cons_of_mem _ (ih (fun x hx => h x (List.mem_cons_of_mem _ hx)))
      · rename_i h1 h2
        simp only [Buff.lt, decide_eq_true_eq] at h1 h2
        omega

theorem BuffSet.set_intersection_nil (s : BuffSet) : BuffSet.set_intersection s [] = [] := by
  cases s <;> simp [BuffSet.set_intersection]

theorem BuffSet.eraseRange_nil (s : BuffSet) : BuffSet.eraseRange s [] = s := by
  simp [BuffSet.eraseRange, BuffSet.containsEquiv]

theorem Player.removeBuffs_nil (p : Player) : p.removeBuffs [] = p := by
  simp [Player.removeBuffs, BuffSet.set_intersection_nil, BuffSet.insertRange,
    BuffSet.eraseRange_nil]

theorem Player.apply_BuffsDelta_add (p : Player) (add : BuffSet) :
    p.apply_BuffsDelta { add := add, remove := [] } =
      { p with buffs := BuffSet.insertRange p.buffs add } := by
  simp [Player.apply_BuffsDelta, Player.removeBuffs_nil, Player.addBuffs]

/-- Adding a single buff `b` with nothing to remove is `std::set::insert`: no buff leaves the
set, and afterwards the set holds a buff whose description is as long as that of `b`. -/
theorem Player.apply_BuffsDelta_add_single (p : Player) (b : Buff) :
    (p.apply_BuffsDelta { add := [b], remove := [] }).buffs = BuffSet.insert b p.buffs ∧
    (∀ x ∈ p.buffs, x ∈ (p.apply_BuffsDelta { add := [b], remove := [] }).buffs) ∧
    (∃ x ∈ (p.apply_BuffsDelta { add := [b], remove := [] }).buffs,
      x.description.length = b.description.length) := by
  rw [Player.apply_BuffsDelta_add]
  exact ⟨rfl, fun x hx => BuffSet.mem_insert_of_mem b hx,
    BuffSet.exists_equiv_mem_insert b p.buffs⟩

/-- C7, at a failing input: `admin` of `main` holds the coffee buff after a `Move`; adding the
validly constructed buff `tea`, whose description has three bytes as well, leaves the set as it
was, with no buff of description `tea` in it. -/
theorem Player.apply_BuffsDelta_tea_not_added :
    Move.execute mainAdmin 1 0 = .ok (⟨1, 0⟩, mainAdminWithCoffee) ∧
    Buff.new { multiplyLevel := 1, multiplyHealth := 1 } (lit "tea") = .ok teaBuff ∧
    (mainAdminWithCoffee.apply_BuffsDelta { add := [teaBuff], remove := [] }).buffs =
      [coffeeBuff] ∧
    (mainAdminWithCoffee.apply_BuffsDelta { add := [teaBuff], remove := [] }).getBuffs =
      lit "☕" ∧
    (∀ b ∈ (mainAdminWithCoffee.apply_BuffsDelta { add := [teaBuff], remove := [] }).buffs,
      b.getDescription ≠ teaBuff.getDescription) := by
  have hb : (mainAdminWithCoffee.apply_BuffsDelta { add := [teaBuff], remove := [] }).buffs =
      [coffeeBuff] := by
    rw [Player.apply_BuffsDelta_add]; rfl
  refine ⟨?_, Buff.new_tea, hb, ?_, ?_⟩
  · simp only [Move.execute, Move.RAND_LIMIT, Buff.new_coffee, Player.apply_BuffsDelta_add,
      bind, Except.bind, pure, Except.pure]
    rfl
  · rw [Player.apply_BuffsDelta_add]; rfl
  · rw [hb]
    intro b hb'
    rw [List.mem_singleton.mp hb']
    decide

/-! ## `Move`, `Jog` and `MountainJog` on a player -/

/-- What `Move::execute` does in every state: it never throws; it adds `(r1 % 12, r2 % 12)` to
the current position (in `int` arithmetic, which is the exact sum whenever that is an `int`),
leaves nickname, level, health and check point as they were, removes no buff, and calls
`std::set::insert` with the herb buff when `(r1 % 12) % 3 = 0`, with the coffee buff when it is
`1`, and with nothing when it is `2`.  The buff is in the set afterwards when the set held no
buff with a description of the same length. -/
theorem Move.execute_effect (p : Player) (r1 r2 : Nat) :
    ∃ q, Move.execute p r1 r2 = .ok (⟨((r1 % 12 : Nat) : Int), ((r2 % 12 : Nat) : Int)⟩, q) ∧
      q.currentPosition =
        ⟨wrapInt (p.currentPosition.x + ((r1 % 12 : Nat) : Int)),
         wrapInt (p.currentPosition.y + ((r2 % 12 : Nat) : Int))⟩ ∧
      (InIntRange (p.currentPosition.x + ((r1 % 12 : Nat) : Int)) →
        InIntRange (p.currentPosition.y + ((r2 % 12 : Nat) : Int)) →
        q.currentPosition =
          ⟨p.currentPosition.x + ((r1 % 12 : Nat) : Int),
           p.currentPosition.y + ((r2 % 12 : Nat) : Int)⟩) ∧
      q.nickname = p.nickname ∧ q.level = p.level ∧ q.health = p.health ∧
      q.checkPoint = p.checkPoint ∧
      (∀ b ∈ p.buffs, b ∈ q.buffs) ∧
      ((r1 % 12) % 3 = 0 → q.buffs = BuffSet.insert herbBuff p.buffs ∧
        ((∀ b ∈ p.buffs, b.description.length ≠ 4) → herbBuff ∈ q.buffs)) ∧
      ((r1 % 12) % 3 = 1 → q.buffs = BuffSet.insert coffeeBuff p.buffs ∧
        ((∀ b ∈ p.buffs, b.description.length ≠ 3) → coffeeBuff ∈ q.buffs)) ∧
      ((r1 % 12) % 3 = 2 → q.buffs = p.buffs) := by
  have hcases : (r1 % 12) % 3 = 0 ∨ (r1 % 12) % 3 = 1 ∨ (r1 % 12) % 3 = 2 := by omega
  have hpos : ∀ s : BuffSet,
      InIntRange (p.currentPosition.x + ((r1 % 12 : Nat) : Int)) →
      InIntRange (p.currentPosition.y + ((r2 % 12 : Nat) : Int)) →
      (({ p with buffs := s } : Player).apply_PositionDelta
          ⟨((r1 % 12 : Nat) : Int), ((r2 % 12 : Nat) : Int)⟩).currentPosition =
        ⟨p.currentPosition.x + ((r1 % 12 : Nat) : Int),
         p.currentPosition.y + ((r2 % 12 : Nat) : Int)⟩ := by
    intro s hx hy
    simp only [Player.apply_PositionDelta, wrapInt_of_inRange hx, wrapInt_of_inRange hy]
  rcases hcases with h | h | h
  · refine ⟨({ p with buffs := BuffSet.insert herbBuff p.buffs } : Player).apply_PositionDelta
        ⟨((r1 % 12 : Nat) : Int), ((r2 % 12 : Nat) : Int)⟩, ?_, rfl, hpos _, rfl, rfl, rfl, rfl,
        fun b hb => BuffSet.mem_insert_of_mem herbBuff hb, ?_, ?_, ?_⟩
    · simp only [Move.execute, Move.RAND_LIMIT, h, Buff.new_herb, Player.apply_BuffsDelta_add,
        bind, Except.bind, pure, Except.pure, if_true]
      rfl
    · intro _
      refine ⟨rfl, fun hne => BuffSet.mem_insert_self_of_no_equiv herbBuff p.buffs ?_⟩
      intro x hx
      have h4 : herbBuff.description.length = 4 := by decide
      rw [h4]
      exact hne x hx
    · intro h'; omega
    · intro h'; omega
  · refine ⟨({ p with buffs := BuffSet.insert coffeeBuff p.buffs } : Player).apply_PositionDelta
        ⟨((r1 % 12 : Nat) : Int), ((r2 % 12 : Nat) : Int)⟩, ?_, rfl, hpos _, rfl, rfl, rfl, rfl,
        fun b hb => BuffSet.mem_insert_of_mem coffeeBuff hb, ?_, ?_, ?_⟩
    · simp only [Move.execute, Move.RAND_LIMIT, h, Buff.new_coffee, Player.apply_BuffsDelta_add,
        bind, Except.bind, pure, Except.pure, if_true, one_ne_zero, if_false]
      rfl
    · intro h'; omega
    · intro _
      refine ⟨rfl, fun hne => BuffSet.mem_insert_self_of_no_equiv coffeeBuff p.buffs ?_⟩
      intro x hx
      have h3 : coffeeBuff.description.length = 3 := by decide
      rw [h3]
      exact hne x hx
    · intro h'; omega
  · refine ⟨p.apply_PositionDelta ⟨((r1 % 12 : Nat) : Int), ((r2 % 12 : Nat) : Int)⟩,
        ?_, rfl, hpos p.buffs, rfl, rfl, rfl, rfl, fun b hb => hb, ?_, ?_, ?_⟩
    · have h0 : ¬ ((r1 % 12) % 3 = 0) := by omega
      have h1 : ¬ ((r1 % 12) % 3 = 1) := by omega
      simp only [Move.execute, Move.RAND_LIMIT, h0, h1, Player.apply_BuffsDelta_add,
        bind, Except.bind, pure, Except.pure, if_false]
      rfl
    · intro h'; omega
    · intro h'; omega
    · intro _; rfl

theorem Buff.new_abcd :
    Buff.new { multiplyLevel := 1, multiplyHealth := 1 } (lit "abcd") = .ok abcdBuff := by
  have hl : ¬ toUInt (CppString.length (lit "abcd")) > Buff.MAX_DESCRIPTION_LENGTH := by decide
  have hs : ¬ ((1 : ℚ) + 1 > 10) := by norm_num
  simp only [Buff.new, hl, hs, if_false, abcdBuff]

/-- C8, at a failing input: `admin` of `main` holds the validly constructed buff `abcd`, whose
description has four bytes as that of the herb buff has.  `Move::execute` with the draws `3` and
`5` (so `(3 % 12) % 3 = 0`, the herb branch) does not throw and moves the player by `(3, 5)`,
but the buff set stays as it was: no buff with the description of the herb buff is in it. -/
theorem Move.execute_herb_not_added :
    Buff.new { multiplyLevel := 1, multiplyHealth := 1 } (lit "abcd") = .ok abcdBuff ∧
    mainAdmin.apply_BuffsDelta { add := [abcdBuff], remove := [] } = mainAdminWithAbcd ∧
    (3 % 12) % 3 = 0 ∧
    Move.execute mainAdminWithAbcd 3 5 =
      .ok (⟨3, 5⟩, { mainAdminWithAbcd with currentPosition := ⟨6, 7⟩ }) ∧
    ({ mainAdminWithAbcd with currentPosition := ⟨6, 7⟩ } : Player).buffs = [abcdBuff] ∧
    ({ mainAdminWithAbcd with currentPosition := ⟨6, 7⟩ } : Player).getBuffs = lit "abcd" ∧
    (∀ b ∈ ({ mainAdminWithAbcd with currentPosition := ⟨6, 7⟩ } : Player).buffs,
      b.getDescription ≠ herbBuff.getDescription) := by
  refine ⟨Buff.new_abcd, ?_, rfl, ?_, rfl, rfl, ?_⟩
  · rw [Player.apply_BuffsDelta_add]; rfl
  · simp only [Move.execute, Move.RAND_LIMIT, Buff.new_herb, Player.apply_BuffsDelta_add,
      bind, Except.bind, pure, Except.pure]
    rfl
  · intro b hb
    have hb' : b ∈ [abcdBuff] := hb
    rw [List.mem_singleton.mp hb']
    decide

theorem ActionMap.find?_assign (k : CppString) (a : Action) (m : ActionMap) (key : CppString) :
    ActionMap.find? (ActionMap.assign k a m) key =
      if k = key then some a else ActionMap.find? m key := by
  induction m with
  | nil => simp [ActionMap.assign, ActionMap.find?]
  | cons e m ih =>
    obtain ⟨k', a'⟩ := e
    unfold ActionMap.assign
    split
    · rename_i h
      subst h
      simp only [ActionMap.find?]
      split <;> rfl
    · rename_i h
      split
      · simp only [ActionMap.find?]
      · simp only [ActionMap.find?, ih]
        by_cases h1 : k' = key
        · have h2 : ¬ k = key := fun h2 => h (h1.trans h2.symm)
          simp [h1, h2]
        · simp [h1]

theorem ActionMap.mem_keys_assign (k : CppString) (a : Action) (m : ActionMap)
    (key : CppString) :
    key ∈ ActionMap.keys (ActionMap.assign k a m) ↔ key = k ∨ key ∈ ActionMap.keys m := by
  induction m with
  | nil => simp [ActionMap.assign, ActionMap.keys]
  | cons e m ih =>
    obtain ⟨k', a'⟩ := e
    unfold ActionMap.assign
    split
    · rename_i h
      subst h
      simp [ActionMap.keys]
    · split
      · simp [ActionMap.keys]
      · simp only [ActionMap.keys, List.map_cons, List.mem_cons] at ih ⊢
        rw [ih]
        tauto

theorem ActionMap.find?_eq_none_iff (m : ActionMap) (key : CppString) :
    ActionMap.find? m key = none ↔ key ∉ ActionMap.keys m := by
  induction m with
  | nil => simp [ActionMap.find?, ActionMap.keys]
  | cons e m ih =>
    obtain ⟨k', a'⟩ := e
    simp only [ActionMap.find?, ActionMap.keys, List.map_cons, List.mem_cons, not_or] at ih ⊢
    by_cases h : k' = key
    · simp [h]
    · have h' : ¬ key = k' := fun h' => h h'.symm
      simp [h, h', ih]

theorem ActionMap.count_pos_iff (m : ActionMap) (key : CppString) :
    ActionMap.count m key > 0 ↔ key ∈ ActionMap.keys m := by
  unfold ActionMap.count ActionMap.keys
  by_cases h : (m.any fun entry => entry.1 = key) = true
  · simp only [h, if_true]
    simp only [List.any_eq_true, decide_eq_true_eq] at h
    obtain ⟨e, he, hk⟩ := h
    simp only [gt_iff_lt, Nat.lt_one_iff, pos_of_gt, true_iff, List.mem_map]
    exact ⟨e, he, hk⟩
  · simp only [h]
    simp only [List.any_eq_true, decide_eq_true_eq, not_exists, not_and] at h
    simp only [Bool.false_eq_true, if_false, gt_iff_lt, lt_self_iff_false, false_iff, List.mem_map, not_exists, not_and]
    intro e he hk
    exact h e he hk

/-! ## The commands of the game -/

theorem lit_q : lit "/q" = [47, 113] := by decide
theorem lit_m : lit "/m" = [47, 109] := by decide
theorem lit_move : lit "/move:" = [47, 109, 111, 118, 101, 58] := by decide
theorem lit_jog : lit "/jog:" = [47, 106, 111, 103, 58] := by decide
theorem lit_mjog : lit "/mjog:" = [47, 109, 106, 111, 103, 58] := by decide


theorem Game.find?_add (g : Game) (heap : Heap) (p : Ptr) (key : CppString) :
    (g.add heap p).availableActions.find? key =
      if lit "/mjog:" ++ (heap p).nickname = key then some (.MountainJog none p)
      else if lit "/jog:" ++ (heap p).nickname = key then some (.Jog none p)
      else if lit "/move:" ++ (heap p).nickname = key then some (.Move none p)
      else g.availableActions.find? key := by
  simp only [Game.add, ActionMap.find?_assign, Player.getNickname]

theorem Game.mem_keys_add (g : Game) (heap : Heap) (p : Ptr) (key : CppString) :
    key ∈ (g.add heap p).availableActions.keys ↔
      (key = lit "/move:" ++ (heap p).nickname ∨ key = lit "/jog:" ++ (heap p).nickname ∨
        key = lit "/mjog:" ++ (heap p).nickname) ∨ key ∈ g.availableActions.keys := by
  simp only [Game.add, ActionMap.mem_keys_assign, Player.getNickname]
  tauto

theorem Game.addAll_cons (g : Game) (heap : Heap) (p : Ptr) (ps : List Ptr) :
    g.addAll heap (p :: ps) = (g.add heap p).addAll heap ps := rfl

theorem Game.admin_addAll (heap : Heap) (ps : List Ptr) (g : Game) :
    (g.addAll heap ps).admin = g.admin := by
  induction ps generalizing g with
  | nil => rfl
  | cons p ps ih => rw [Game.addAll_cons, ih]; rfl

theorem Game.mem_keys_addAll (heap : Heap) (ps : List Ptr) (g : Game) (key : CppString) :
    key ∈ (g.addAll heap ps).availableActions.keys ↔
      key ∈ g.availableActions.keys ∨
      ∃ p ∈ ps, key = lit "/move:" ++ (heap p).nickname ∨
        key = lit "/jog:" ++ (heap p).nickname ∨ key = lit "/mjog:" ++ (heap p).nickname := by
  induction ps generalizing g with
  | nil => simp [Game.addAll]
  | cons p ps ih =>
    rw [Game.addAll_cons, ih, Game.mem_keys_add]
    constructor
    · rintro ((h | h) | ⟨q, hq, h⟩)
      · exact Or.inr ⟨p, List.mem_cons_self _ _, h⟩
      · exact Or.inl h
      · exact Or.inr ⟨q, List.mem_cons_of_mem _ hq, h⟩
    · rintro (h | ⟨q, hq, h⟩)
      · exact Or.inl (Or.inr h)
      · rcases List.mem_cons.mp hq with hqp | hq
        · subst hqp
          exact Or.inl (Or.inl h)
        · exact Or.inr ⟨q, hq, h⟩

theorem Game.find?_addAll_of_ne (heap : Heap) (ps : List Ptr) (g : Game) (key : CppString)
    (h : ∀ p ∈ ps, key ≠ lit "/move:" ++ (heap p).nickname ∧
      key ≠ lit "/jog:" ++ (heap p).nickname ∧ key ≠ lit "/mjog:" ++ (heap p).nickname) :
    (g.addAll heap ps).availableActions.find? key = g.availableActions.find? key := by
  induction ps generalizing g with
  | nil => rfl
  | cons p ps ih =>
    rw [Game.addAll_cons, ih _ (fun q hq => h q (List.mem_cons_of_mem _ hq)), Game.find?_add]
    obtain ⟨h1, h2, h3⟩ := h p (List.mem_cons_self _ _)
    simp [Ne.symm h1, Ne.symm h2, Ne.symm h3]

theorem Game.find?_addAll_of_mem (heap : Heap) (ps : List Ptr) (g : Game)
    (hnd : (ps.map fun p => (heap p).getNickname).Nodup) (p : Ptr) (hp : p ∈ ps) :
    (g.addAll heap ps).availableActions.find? (lit "/move:" ++ (heap p).getNickname) =
        some (.Move none p) ∧
    (g.addAll heap ps).availableActions.find? (lit "/jog:" ++ (heap p).getNickname) =
        some (.Jog none p) ∧
    (g.addAll heap ps).availableActions.find? (lit "/mjog:" ++ (heap p).getNickname) =
        some (.MountainJog none p) := by
  induction ps generalizing g with
  | nil => cases hp
  | cons p₀ ps ih =>
    rw [List.map_cons, List.nodup_cons] at hnd
    rw [Game.addAll_cons]
    by_cases hmem : p ∈ ps
    · exact ih _ hnd.2 hmem
    · have hpp : p = p₀ := by
        rcases List.mem_cons.mp hp with h | h
        · exact h
        · exact absurd h hmem
      subst hpp
      have hne : ∀ q ∈ ps, (heap p).nickname ≠ (heap q).nickname := by
        intro q hq heq
        exact hnd.1 (List.mem_map.mpr ⟨q, hq, heq.symm⟩)
      simp only [Player.getNickname]
      refine ⟨?_, ?_, ?_⟩
      · rw [Game.find?_addAll_of_ne, Game.find?_add]
        · simp [lit_move, lit_jog, lit_mjog]
        · intro q hq
          have := hne q hq
          simp [lit_move, lit_jog, lit_mjog, this]
      · rw [Game.find?_addAll_of_ne, Game.find?_add]
        · simp [lit_move, lit_jog, lit_mjog]
        · intro q hq
          have := hne q hq
          simp [lit_move, lit_jog, lit_mjog, this]
      · rw [Game.find?_addAll_of_ne, Game.find?_add]
        · simp
        · intro q hq
          have := hne q hq
          simp [lit_move, lit_jog, lit_mjog, this]

theorem Game.find?_new_addAll (heap : Heap) (admin : Ptr) (ps : List Ptr) :
    ((Game.new admin).addAll heap ps).availableActions.find? (lit "/q") =
        some (.AdminSuicide admin) ∧
    ((Game.new admin).addAll heap ps).availableActions.find? (lit "/m") =
        some (.Move none admin) := by
  constructor
  · rw [Game.find?_addAll_of_ne]
    · simp [Game.new, ActionMap.find?_assign, lit_q, lit_m]
    · intro q _
      simp [lit_q, lit_move, lit_jog, lit_mjog]
  · rw [Game.find?_addAll_of_ne]
    · simp [Game.new, ActionMap.find?_assign, lit_q, lit_m]
    · intro q _
      simp [lit_m, lit_move, lit_jog, lit_mjog]

/-- C6: after `Game(admin)` and `add` for players with pairwise distinct nicknames, the keys of
`availableActions` are exactly `/q`, `/m` and, for each added player, `/move:`, `/jog:` and
`/mjog:` followed by the nickname; `/q` is an `AdminSuicide` and `/m` a `Move` on the admin, and
the three keys of a player are a `Move`, a `Jog` and a `MountainJog` on that player. -/
theorem Game.availableActions_after_adds (heap : Heap) (admin : Ptr) (players : List Ptr)
    (hnd : (players.map fun p => (heap p).getNickname).Nodup) :
    (∀ key, key ∈ ((Game.new admin).addAll heap players).availableActions.keys ↔
      key = lit "/q" ∨ key = lit "/m" ∨
      ∃ p ∈ players, key = lit "/move:" ++ (heap p).getNickname ∨
        key = lit "/jog:" ++ (heap p).getNickname ∨
        key = lit "/mjog:" ++ (heap p).getNickname) ∧
    ((Game.new admin).addAll heap players).availableActions.find? (lit "/q") =
      some (.AdminSuicide admin) ∧
    ((Game.new admin).addAll heap players).availableActions.find? (lit "/m") =
      some (.Move none admin) ∧
    (∀ p ∈ players,
      ((Game.new admin).addAll heap players).availableActions.find?
          (lit "/move:" ++ (heap p).getNickname) = some (.Move none p) ∧
      ((Game.new admin).addAll heap players).availableActions.find?
          (lit "/jog:" ++ (heap p).getNickname) = some (.Jog none p) ∧
      ((Game.new admin).addAll heap players).availableActions.find?
          (lit "/mjog:" ++ (heap p).getNickname) = some (.MountainJog none p)) := by
  refine ⟨?_, (Game.find?_new_addAll heap admin players).1,
    (Game.find?_new_addAll heap admin players).2,
    fun p hp => Game.find?_addAll_of_mem heap players _ hnd p hp⟩
  intro key
  rw [Game.mem_keys_addAll]
  have hk : key ∈ (Game.new admin).availableActions.keys ↔ key = lit "/q" ∨ key = lit "/m" := by
    simp only [Game.new, ActionMap.mem_keys_assign]
    simp only [ActionMap.keys, List.map_nil, List.not_mem_nil, or_false]
    exact Or.comm
  rw [hk]
  simp only [Player.getNickname]
  constructor
  · rintro ((h | h) | h)
    · exact Or.inl h
    · exact Or.inr (Or.inl h)
    · exact Or.inr (Or.inr h)
  · rintro (h | h | h)
    · exact Or.inl (Or.inl h)
    · exact Or.inl (Or.inr h)
    · exact Or.inr h


theorem Game.availableActions_after_adds_witness :
    ([1].map fun p => (mainHeap p).getNickname).Nodup ∧
    ((Game.new 0).addAll mainHeap [1]).availableActions.find? (lit "/q") =
      some (.AdminSuicide 0) ∧
    ((Game.new 0).addAll mainHeap [1]).availableActions.find?
      (lit "/mjog:" ++ (mainHeap 1).getNickname) = some (.MountainJog none 1) :=
  ⟨by decide,
   (Game.availableActions_after_adds mainHeap 0 [1] (by decide)).2.1,
   ((Game.availableActions_after_adds mainHeap 0 [1] (by decide)).2.2.2 1
      (List.mem_singleton.mpr rfl)).2.2⟩

/-! ## The game loop -/

theorem Move.execute_move_ok (p : Player) (r1 r2 : Nat) : ∃ r, Move.execute p r1 r2 = .ok r := by
  simp only [Move.execute, Buff.new_herb, Buff.new_coffee, bind, Except.bind, pure, Except.pure]
  split
  · exact ⟨_, rfl⟩
  · split
    · exact ⟨_, rfl⟩
    · exact ⟨_, rfl⟩

theorem AdminSuicide.execute_die (p : Player) (r : Nat) (h : r % 2 = 1) :
    AdminSuicide.execute p r =
      .ok (p.apply_StatsDelta { deltaHealth := -10000, deltaLevel := 0 }) := by
  simp [AdminSuicide.execute, h]
  rfl

theorem AdminSuicide.execute_survive (p : Player) (r : Nat) (h : r % 2 = 0) :
    AdminSuicide.execute p r =
      .ok (p.apply_BuffsDelta { add := [badPotionBuff], remove := [] }) := by
  simp only [AdminSuicide.execute, h, Buff.new_badPotion, bind, Except.bind, pure, Except.pure]
  rfl

theorem AdminSuicide.execute_suicide_ok (p : Player) (r : Nat) :
    ∃ q, AdminSuicide.execute p r = .ok q := by
  rcases Nat.mod_two_eq_zero_or_one r with h | h
  · exact ⟨_, AdminSuicide.execute_survive p r h⟩
  · exact ⟨_, AdminSuicide.execute_die p r h⟩

theorem Action.execute_action_ok (rand : Nat → Nat) (action : Action) (heap : Heap) (randCalls : Nat) :
    ∃ r, Action.execute rand action heap randCalls = .ok r := by
  cases action with
  | AdminSuicide admin =>
    obtain ⟨q, hq⟩ := AdminSuicide.execute_suicide_ok (heap admin) (rand randCalls)
    simp only [Action.execute, hq, bind, Except.bind, pure, Except.pure]
    exact ⟨_, rfl⟩
  | Move moveDelta subscriber =>
    obtain ⟨r, hr⟩ := Move.execute_move_ok (heap subscriber) (rand randCalls) (rand (randCalls + 1))
    simp only [Action.execute, hr, bind, Except.bind, pure, Except.pure]
    exact ⟨_, rfl⟩
  | Jog moveDelta subscriber => exact ⟨_, rfl⟩
  | MountainJog moveDelta subscriber => exact ⟨_, rfl⟩

theorem Action.execute_AdminSuicide_action (rand : Nat → Nat) (admin : Ptr) (heap : Heap)
    (randCalls : Nat) (r : Action × Heap × Nat)
    (h : Action.execute rand (.AdminSuicide admin) heap randCalls = .ok r) :
    r.1 = .AdminSuicide admin := by
  obtain ⟨q, hq⟩ := AdminSuicide.execute_suicide_ok (heap admin) (rand randCalls)
  simp only [Action.execute, hq, bind, Except.bind, pure, Except.pure] at h
  cases h
  rfl

theorem Game.turn_of_not_mem_keys (rand : Nat → Nat) (w : World) (input : CppString)
    (h : input ∉ w.game.availableActions.keys) : Game.turn rand w input = .ok w := by
  have hc : ¬ w.game.availableActions.count input > 0 := by
    rw [ActionMap.count_pos_iff]; exact h
  simp only [Game.turn, hc, if_false]
  rfl

theorem Game.turn_of_find? (rand : Nat → Nat) (w : World) (input : CppString) (action : Action)
    (h : w.game.availableActions.find? input = some action) :
    Game.turn rand w input =
      (action.execute rand w.heap w.randCalls).bind fun r =>
        .ok { heap := r.2.1
              game := { w.game with
                availableActions := w.game.availableActions.assign input r.1 }
              randCalls := r.2.2 } := by
  have hc : w.game.availableActions.count input > 0 := by
    rw [ActionMap.count_pos_iff]
    by_contra hn
    rw [← ActionMap.find?_eq_none_iff, h] at hn
    cases hn
  simp only [Game.turn, hc, if_true, h]
  rfl

theorem Game.turn_ok (rand : Nat → Nat) (w : World) (input : CppString) :
    ∃ w', Game.turn rand w input = .ok w' := by
  cases hf : w.game.availableActions.find? input with
  | none =>
    exact ⟨w, Game.turn_of_not_mem_keys rand w input
      ((ActionMap.find?_eq_none_iff _ _).mp hf)⟩
  | some action =>
    obtain ⟨r, hr⟩ := Action.execute_action_ok rand action w.heap w.randCalls
    rw [Game.turn_of_find? rand w input action hf, hr]
    exact ⟨_, rfl⟩

/-- The part of the state that the loop relies on: who the admin is, and what `/q` does. -/
theorem Game.turn_preserves_admin (rand : Nat → Nat) (w w' : World) (input : CppString)
    (admin : Ptr) (h : Game.turn rand w input = .ok w')
    (ha : w.game.admin = admin ∧
      w.game.availableActions.find? (lit "/q") = some (.AdminSuicide admin)) :
    w'.game.admin = admin ∧
      w'.game.availableActions.find? (lit "/q") = some (.AdminSuicide admin) := by
  cases hf : w.game.availableActions.find? input with
  | none =>
    rw [Game.turn_of_not_mem_keys rand w input ((ActionMap.find?_eq_none_iff _ _).mp hf)] at h
    cases h
    exact ha
  | some action =>
    obtain ⟨r, hr⟩ := Action.execute_action_ok rand action w.heap w.randCalls
    rw [Game.turn_of_find? rand w input action hf, hr] at h
    cases h
    refine ⟨ha.1, ?_⟩
    simp only [ActionMap.find?_assign]
    split
    · rename_i hk
      subst hk
      rw [ha.2] at hf
      cases hf
      rw [Action.execute_AdminSuicide_action rand admin w.heap w.randCalls r hr]
    · exact ha.2

theorem Game.startGameLoop_of_dead (rand : Nat → Nat) (w : World) (tokens : List CppString)
    (h : (w.heap w.game.admin).getHealth = 0) :
    Game.startGameLoop rand w tokens = .ok (.finished w tokens) := by
  have hc : Game.loopCondition w = false := by simp [Game.loopCondition, h]
  cases tokens with
  | nil => simp only [Game.startGameLoop, hc]; rfl
  | cons input rest => simp only [Game.startGameLoop, hc]; rfl

theorem Game.startGameLoop_cons_of_alive (rand : Nat → Nat) (w : World) (input : CppString)
    (rest : List CppString) (h : 0 < (w.heap w.game.admin).getHealth) :
    Game.startGameLoop rand w (input :: rest) =
      (Game.turn rand w input).bind fun w' => Game.startGameLoop rand w' rest := by
  have hc : Game.loopCondition w = true := by simp [Game.loopCondition, h]
  simp only [Game.startGameLoop, hc, if_true]
  rfl

theorem Game.startGameLoop_awaiting (rand : Nat → Nat) (tokens : List CppString) (w₀ w : World)
    (admin : Ptr)
    (h : Game.startGameLoop rand w₀ tokens = .ok (.awaiting w))
    (ha : w₀.game.admin = admin ∧
      w₀.game.availableActions.find? (lit "/q") = some (.AdminSuicide admin)) :
    (w.game.admin = admin ∧
      w.game.availableActions.find? (lit "/q") = some (.AdminSuicide admin)) ∧
    0 < (w.heap w.game.admin).getHealth ∧
    ∀ more, Game.startGameLoop rand w₀ (tokens ++ more) = Game.startGameLoop rand w more := by
  induction tokens generalizing w₀ with
  | nil =>
    by_cases hc : Game.loopCondition w₀ = true
    · simp only [Game.startGameLoop, hc, if_true, pure, Except.pure] at h
      cases h
      refine ⟨ha, ?_, fun more => rfl⟩
      simpa [Game.loopCondition] using hc
    · simp only [Game.startGameLoop, hc, pure, Except.pure] at h
      cases h
  | cons input rest ih =>
    by_cases hc : 0 < (w₀.heap w₀.game.admin).getHealth
    · obtain ⟨w₁, hw₁⟩ := Game.turn_ok rand w₀ input
      rw [Game.startGameLoop_cons_of_alive rand w₀ input rest hc, hw₁] at h
      obtain ⟨hinv, hpos, happ⟩ :=
        ih w₁ h (Game.turn_preserves_admin rand w₀ w₁ input admin hw₁ ha)
      refine ⟨hinv, hpos, fun more => ?_⟩
      rw [List.cons_append, Game.startGameLoop_cons_of_alive rand w₀ input _ hc, hw₁]
      exact happ more
    · rw [Game.startGameLoop_of_dead rand w₀ _ (by omega)] at h
      cases h

theorem Game.turn_q_die (rand : Nat → Nat) (w : World)
    (hq : w.game.availableActions.find? (lit "/q") = some (.AdminSuicide w.game.admin))
    (hdie : rand w.randCalls % 2 = 1) :
    Game.turn rand w (lit "/q") =
      .ok { heap := Function.update w.heap w.game.admin
              ((w.heap w.game.admin).apply_StatsDelta { deltaHealth := -10000, deltaLevel := 0 })
            game := { w.game with
              availableActions :=
                w.game.availableActions.assign (lit "/q") (.AdminSuicide w.game.admin) }
            randCalls := w.randCalls + 1 } := by
  rw [Game.turn_of_find? rand w (lit "/q") _ hq]
  simp only [Action.execute, AdminSuicide.execute_die _ _ hdie, bind, Except.bind, pure,
    Except.pure]

/-- C4: a turn of the game loop whose input is not a key of `availableActions` leaves the whole
state as it was: every player, the map of actions and the number of calls of `rand()`, of which
every action makes at least one.  The loop goes on as if the token had not been there. -/
theorem Game.turn_unrecognized (rand : Nat → Nat) (w : World) (input : CppString)
    (h : input ∉ w.game.availableActions.keys) :
    Game.turn rand w input = .ok w ∧
    ∀ rest, 0 < (w.heap w.game.admin).getHealth →
      Game.startGameLoop rand w (input :: rest) = Game.startGameLoop rand w rest := by
  refine ⟨Game.turn_of_not_mem_keys rand w input h, fun rest hpos => ?_⟩
  rw [Game.startGameLoop_cons_of_alive rand w input rest hpos,
    Game.turn_of_not_mem_keys rand w input h]
  rfl

theorem Game.turn_unrecognized_witness :
    lit "q" ∉ mainWorld.game.availableActions.keys ∧
    Game.turn (fun _ => 1) mainWorld (lit "q") = .ok mainWorld ∧
    Game.startGameLoop (fun _ => 1) mainWorld [lit "q", lit "/jog:fersp63"] =
      Game.startGameLoop (fun _ => 1) mainWorld [lit "/jog:fersp63"] :=
  ⟨by decide,
   (Game.turn_unrecognized (fun _ => 1) mainWorld (lit "q") (by decide)).1,
   (Game.turn_unrecognized (fun _ => 1) mainWorld (lit "q") (by decide)).2
      [lit "/jog:fersp63"] (by decide)⟩

/-- C5: the body of the loop runs for a token exactly when the health of the admin is positive;
with health `0` the loop is left at once and reads nothing.  In a game built by `Game(admin)`
and `add`, in any state `w` that the running loop has reached, the command `/q` with an odd draw
of `rand()` (the dying branch) does not throw and leaves the admin with health `0`; the loop is
left right after it, and no token that follows is read or executed. -/
theorem Game.loop_ends_after_suicide (rand : Nat → Nat) (heap : Heap) (admin : Ptr)
    (players : List Ptr) (randCalls : Nat) (tokens : List CppString) (w : World)
    (rest : List CppString)
    (hrun : Game.startGameLoop rand ⟨heap, (Game.new admin).addAll heap players, randCalls⟩
      tokens = .ok (.awaiting w))
    (hdie : rand w.randCalls % 2 = 1) :
    (∀ (v : World) (input : CppString) (more : List CppString),
      (0 < (v.heap v.game.admin).getHealth →
        Game.startGameLoop rand v (input :: more) =
          (Game.turn rand v input).bind fun v' => Game.startGameLoop rand v' more) ∧
      (¬ 0 < (v.heap v.game.admin).getHealth →
        Game.startGameLoop rand v (input :: more) = .ok (.finished v (input :: more)))) ∧
    ∃ w', Game.turn rand w (lit "/q") = .ok w' ∧
      (w'.heap w'.game.admin).getHealth = 0 ∧
      Game.startGameLoop rand ⟨heap, (Game.new admin).addAll heap players, randCalls⟩
        (tokens ++ lit "/q" :: rest) = .ok (.finished w' rest) ∧
      ∀ more, Game.startGameLoop rand w' more = .ok (.finished w' more) := by
  constructor
  · intro v input more
    exact ⟨Game.startGameLoop_cons_of_alive rand v input more,
      fun hv => Game.startGameLoop_of_dead rand v _ (by omega)⟩
  · obtain ⟨⟨hadm, hq⟩, hpos, happ⟩ := Game.startGameLoop_awaiting rand tokens _ w admin hrun
      ⟨Game.admin_addAll heap players _, (Game.find?_new_addAll heap admin players).1⟩
    rw [← hadm] at hq
    have hturn := Game.turn_q_die rand w hq hdie
    refine ⟨_, hturn, ?_, ?_, ?_⟩
    · simp [Player.getHealth, Player.apply_StatsDelta]
    · rw [happ, Game.startGameLoop_cons_of_alive rand w _ _ hpos, hturn]
      exact Game.startGameLoop_of_dead rand _ rest
        (by simp [Player.getHealth, Player.apply_StatsDelta])
    · intro more
      exact Game.startGameLoop_of_dead rand _ more
        (by simp [Player.getHealth, Player.apply_StatsDelta])

theorem Game.loop_ends_after_suicide_witness :
    Game.startGameLoop (fun _ => 1) mainWorld [lit "/jog:fersp63", lit "q"] =
      .ok (.awaiting mainWorldAfterJog) ∧
    ∃ w', Game.turn (fun _ => 1) mainWorldAfterJog (lit "/q") = .ok w' ∧
      (w'.heap w'.game.admin).getHealth = 0 ∧
      Game.startGameLoop (fun _ => 1) mainWorld
        ([lit "/jog:fersp63", lit "q"] ++ lit "/q" :: [lit "/m"]) =
          .ok (.finished w' [lit "/m"]) ∧
      ∀ more, Game.startGameLoop (fun _ => 1) w' more = .ok (.finished w' more) :=
  ⟨rfl,
   (Game.loop_ends_after_suicide (fun _ => 1) mainHeap 0 [1] 0
      [lit "/jog:fersp63", lit "q"] mainWorldAfterJog [lit "/m"] rfl rfl).2⟩

end OOPEncapsulation
